import Mathlib

/-
  Verification development for the Infopulse-Node ingestion engine.

  Shallow embedding of the Go sources:
    internal/feeds/parser.go   (fetch normalization, dedup hash, severity)
    internal/feeds/store.go    (SQLite-backed Store: INSERT OR IGNORE,
                                ORDER BY published DESC, LIMIT)
    the in-memory draft Store  (map-based Store with AddItem hash dedup)
    the two Engine drafts      (run-state handling, bounded fetch concurrency)

  Modelling conventions:
  - A Go string is modelled as a list of characters (`Str`).  All string
    operations used by the code (concatenation, substring search, case
    mapping, replacement, slicing) are defined below on that model; the
    ASCII fragment relevant to the claims behaves identically to the Go
    byte-level operations.
  - Wall-clock readings (`time.Now`) within one ingestion cycle are
    modelled by a single per-cycle parameter `now`; distinct cycles pass
    distinct values.  None of the claims below depend on clock advance
    inside a cycle, only on the fact that two cycles observe different
    nanosecond stamps.
  - The MD5 digest is an arbitrary fixed function on strings; theorems
    quantify over it (written `md5h`), so they hold in particular for the
    real digest.  Concrete counterexamples instantiate it with an
    explicit function; the dedup decisions they exercise never consult
    the digest value.
  - SQLite behaviour is embedded explicitly: a table is a list of rows in
    insertion order, INSERT OR IGNORE ignores exactly a primary-key
    (id) conflict, ORDER BY published DESC is a stable descending sort,
    and LIMIT n returns no rows for n = 0 and all rows for n < 0.
-/

namespace Infopulse

/-- A Go string, modelled as its list of characters. -/
abbrev Str := List Char

/-- Embed a Lean string literal into the model. -/
def str (s : String) : Str := s.data

/-- `leadsWith needle hay` is true when `needle` is an initial segment of
`hay` (the prefix test used by substring search and replacement). -/
def leadsWith : Str → Str → Bool
  | [], _ => true
  | _ :: _, [] => false
  | a :: as, b :: bs => a == b && leadsWith as bs

/-- Go `strings.Contains hay needle`: some suffix of `hay` starts with
`needle`. -/
def containsSub : Str → Str → Bool
  | hay, needle =>
    if leadsWith needle hay then true
    else match hay with
      | [] => false
      | _ :: t => containsSub t needle

/-- Go `strings.ToUpper` (ASCII fragment). -/
def toUpperStr (s : Str) : Str := s.map Char.toUpper

/-- Go `strings.ToLower` (ASCII fragment). -/
def toLowerStr (s : Str) : Str := s.map Char.toLower

/-- Go `strings.ReplaceAll hay (o :: os) nw`: replace each non-overlapping
occurrence of the (non-empty, hence given as head and tail) pattern,
scanning left to right. -/
def replaceAll : Str → Char → Str → Str → Str
  | [], _, _, _ => []
  | c :: rest, o, os, nw =>
    if leadsWith (o :: os) (c :: rest) then
      nw ++ replaceAll (List.drop os.length rest) o os nw
    else
      c :: replaceAll rest o os nw
termination_by hay _ _ _ => hay.length
decreasing_by
  · simp only [List.length_drop, List.length_cons]
    omega
  · simp only [List.length_cons]
    omega

/-- One pass of the tag-removal loop of `stripHTMLAndTruncate`
(parser.go:157-165): while the text contains both a `<` and a `>`, cut
out the span from the first `<` through the first following `>`.  The
loop shortens the text on every iteration, so `fuel` initialised to the
text length is never exhausted; running out of fuel returns the text
as-is, exactly like the `break` branch. -/
def stripTags : Nat → Str → Str
  | 0, t => t
  | fuel + 1, t =>
    if ('<' ∈ t) ∧ ('>' ∈ t) then
      let start := t.findIdx (· == '<')
      match (t.drop start).findIdx? (· == '>') with
      | none => t
      | some j =>
        if 0 < j then stripTags fuel (t.take start ++ t.drop (start + j + 1))
        else t
    else t

/-- parser.go `stripHTMLAndTruncate`: normalise `<br>` variants to
newlines, strip remaining tags, then truncate to `maxLength` characters
with a `"..."` marker. -/
def stripHTMLAndTruncate (input : Str) (maxLength : Nat) : Str :=
  let text0 := replaceAll input '<' (str "br>") (str "\n")
  let text1 := replaceAll text0 '<' (str "br/>") (str "\n")
  let text2 := replaceAll text1 '<' (str "br />") (str "\n")
  let text := stripTags text2.length text2
  if maxLength < text.length then text.take maxLength ++ str "..."
  else text

/-- models.go: a configured feed source. -/
structure FeedSource where
  ID : Str
  Name : Str
  URL : Str
  Categories : List Str
  FetchMethod : Str
  UpdateFreq : Int
  Enabled : Bool
deriving DecidableEq, Repr

/-- models.go: a normalized intelligence record (the fields the claims
touch; the placeholder sentiment/entity fields of one models.go draft
are never read by the ingestion path). -/
structure Intelligence where
  ID : Str
  SourceID : Str
  Category : Str
  Title : Str
  URL : Str
  Summary : Str
  Published : Int
  Retrieved : Int
  Hash : Str
  Severity : Str
deriving DecidableEq, Repr

/-- A raw feed entry as delivered by the gofeed parser. -/
structure FeedItem where
  Title : Str
  Link : Str
  GUID : Str
  Description : Str
  Content : Str
  PublishedParsed : Option Int
  UpdatedParsed : Option Int
deriving DecidableEq, Repr

/-- parser.go `generateID`: hash of the native identifier when present,
otherwise the source id tagged with the current nanosecond stamp. -/
def generateID (md5h : Str → Str) (sourceID guid : Str) (nowNano : Nat) : Str :=
  if guid = [] then sourceID ++ str "-" ++ str (Nat.repr nowNano)
  else sourceID ++ str "-" ++ md5h guid

/-- parser.go `getDefaultCategory`: first declared category, or the
infosec-news fallback. -/
def getDefaultCategory (categories : List Str) : Str :=
  match categories with
  | c :: _ => c
  | [] => str "infosec-news"

/-- parser.go `generateHash`: digest of title, link and raw description
concatenated. -/
def generateHash (md5h : Str → Str) (title link description : Str) : Str :=
  md5h (title ++ link ++ description)

/-- parser.go `getSummary`: prefer the description, then the content
(both stripped and truncated to 500), else the raw title. -/
def getSummary (item : FeedItem) : Str :=
  if item.Description ≠ [] then stripHTMLAndTruncate item.Description 500
  else if item.Content ≠ [] then stripHTMLAndTruncate item.Content 500
  else item.Title

/-- parser.go `containsCVE`: case-insensitive test for the
vulnerability-identifier pattern. -/
def containsCVE (text : Str) : Bool :=
  containsSub (toUpperStr text) (str "CVE-")

/-- parser.go `estimateSeverity`: keyword ladder over the lowercased
title plus description, defaulting to MEDIUM. -/
def estimateSeverity (title description : Str) : Str :=
  let text := toLowerStr (title ++ str " " ++ description)
  if containsSub text (str "critical") then str "CRITICAL"
  else if containsSub text (str "high") then str "HIGH"
  else if containsSub text (str "medium") then str "MEDIUM"
  else if containsSub text (str "low") then str "LOW"
  else str "MEDIUM"

/-- parser.go:82-104: build one Intelligence record from a surviving
feed entry (`now` models the wall clock during this cycle). -/
def normalizeItem (md5h : Str → Str) (source : FeedSource) (now : Nat)
    (item : FeedItem) : Intelligence :=
  { ID := generateID md5h source.ID item.GUID now
    SourceID := source.ID
    Category := getDefaultCategory source.Categories
    Title := item.Title
    URL := item.Link
    Summary := getSummary item
    Published :=
      match item.PublishedParsed with
      | some t => t
      | none =>
        match item.UpdatedParsed with
        | some t => t
        | none => (now : Int)
    Retrieved := (now : Int)
    Hash := generateHash md5h item.Title item.Link item.Description
    Severity :=
      if containsCVE item.Title || containsCVE item.Description then
        estimateSeverity item.Title item.Description
      else [] }

/-- parser.go:77-107, the normalization loop of `parseRSSFeed`: an entry
with an empty title or an empty link is skipped (`continue`), every
other entry is normalized and emitted in order. -/
def parseItems (md5h : Str → Str) (source : FeedSource) (now : Nat) :
    List FeedItem → List Intelligence
  | [] => []
  | item :: rest =>
    if item.Title = [] ∨ item.Link = [] then parseItems md5h source now rest
    else normalizeItem md5h source now item :: parseItems md5h source now rest

/-! ## SQLite-backed Store (internal/feeds/store.go)

The table is modelled as the list of its rows in insertion order.  The
schema declares `id TEXT PRIMARY KEY` and only plain (non-unique)
indices on `hash`, `category` and `published` (store.go:62-93), so the
only uniqueness constraint the engine can conflict with is the primary
key on `id`. -/

namespace SqlStore

open Infopulse

/-- One `INSERT OR IGNORE` execution (store.go:113-141): the row is
dropped exactly when its primary key `id` is already present; the
statement itself never errors on a duplicate. -/
def insertOrIgnore (db : List Intelligence) (item : Intelligence) :
    List Intelligence :=
  if ∃ r ∈ db, r.ID = item.ID then db else db ++ [item]

/-- store.go `SaveIntelligence`: run the batch inside one transaction,
incrementing `count` after every statement execution that returns no
error (a primary-key duplicate is ignored by SQLite and reported as
success, so it is counted too).  Returns the new table and the count. -/
def SaveIntelligence : List Intelligence → List Intelligence →
    List Intelligence × Nat
  | db, [] => (db, 0)
  | db, item :: rest =>
    let db1 := insertOrIgnore db item
    let res := SaveIntelligence db1 rest
    (res.1, res.2 + 1)

/-- Descending insertion into a list sorted by `Published` (model of the
stable sort behind `ORDER BY published DESC`). -/
def insertDesc (item : Intelligence) : List Intelligence → List Intelligence
  | [] => [item]
  | x :: xs =>
    if x.Published < item.Published then item :: x :: xs
    else x :: insertDesc item xs

/-- `ORDER BY published DESC`. -/
def sortDesc (l : List Intelligence) : List Intelligence :=
  l.foldr insertDesc []

/-- SQLite `LIMIT n` semantics: a negative bound means unbounded, a
non-negative bound returns at most that many rows (so `LIMIT 0` returns
none). -/
def sqlLimit (limit : Int) (l : List Intelligence) : List Intelligence :=
  if limit < 0 then l else l.take limit.toNat

/-- store.go `GetLatestIntelligence`: filter by category unless the
category is empty, order by publish timestamp descending, apply LIMIT. -/
def GetLatestIntelligence (db : List Intelligence) (category : Str)
    (limit : Int) : List Intelligence :=
  let rows :=
    if category = [] then db
    else db.filter (fun r => r.Category = category)
  sqlLimit limit (sortDesc rows)

/-- store.go `GetTotalCount`: `SELECT COUNT(*)`. -/
def GetTotalCount (db : List Intelligence) : Nat := db.length

/-- store.go `GetCategoryCount`. -/
def GetCategoryCount (db : List Intelligence) (category : Str) : Nat :=
  (db.filter (fun r => r.Category = category)).length

/-- A sequence of batch inserts applied to the empty table. -/
def applyBatches (batches : List (List Intelligence)) : List Intelligence :=
  batches.foldl (fun db b => (SaveIntelligence db b).1) []

end SqlStore

/-! ## In-memory draft Store (the map-based store.go draft)

Go maps are modelled as association lists; overwriting insertion
removes any previous binding of the key and conses the new one. -/

namespace MemStore

open Infopulse

/-- Remove every binding of key `k` (at most one exists for maps built
by `ainsert`). -/
def aremove {α : Type} (k : Str) : List (Str × α) → List (Str × α)
  | [] => []
  | (k', v) :: rest =>
    if k' = k then aremove k rest else (k', v) :: aremove k rest

/-- Go map assignment `m[k] = v`. -/
def ainsert {α : Type} (k : Str) (v : α) (l : List (Str × α)) :
    List (Str × α) :=
  (k, v) :: aremove k l

/-- Go map read `m[k]`. -/
def alookup {α : Type} (k : Str) : List (Str × α) → Option α
  | [] => none
  | (k', v) :: rest => if k' = k then some v else alookup k rest

/-- The draft store state: items by id, the dedup index by hash, and the
per-category append-order slices. -/
structure Store where
  items : List (Str × Intelligence)
  itemsByHash : List (Str × Intelligence)
  itemsByCategory : List (Str × List Intelligence)
deriving DecidableEq, Repr

/-- The freshly constructed store. -/
def empty : Store := ⟨[], [], []⟩

/-- Draft store.go `AddItem`: skip (returning false, no error) when the
hash is already indexed, otherwise add the item to all three maps,
appending it to its category slice. -/
def AddItem (s : Store) (item : Intelligence) : Bool × Store :=
  if (alookup item.Hash s.itemsByHash).isSome then (false, s)
  else
    (true,
      { items := ainsert item.ID item s.items
        itemsByHash := ainsert item.Hash item s.itemsByHash
        itemsByCategory :=
          ainsert item.Category
            ((alookup item.Category s.itemsByCategory).getD [] ++ [item])
            s.itemsByCategory })

/-- Draft store.go `GetItemsByCategory`: the category slice in append
order, truncated only when `0 < limit` and the slice is longer. -/
def GetItemsByCategory (s : Store) (category : Str) (limit : Int) :
    List Intelligence :=
  let items := (alookup category s.itemsByCategory).getD []
  if 0 < limit ∧ (limit : Int) < (items.length : Int) then
    items.take limit.toNat
  else items

/-- Draft store.go `GetLatestItems`: collect the values of the items
map (no sorting is performed; the code comment admits it assumes the
items are already sorted), truncated only when `0 < limit` and there are
more items. -/
def GetLatestItems (s : Store) (limit : Int) : List Intelligence :=
  let allItems := s.items.map (·.2)
  if 0 < limit ∧ (limit : Int) < (allItems.length : Int) then
    allItems.take limit.toNat
  else allItems

/-- Draft store.go `GetTotalCount`: size of the items map. -/
def GetTotalCount (s : Store) : Nat := s.items.length

/-- Draft engine.go `processFeed` storage loop: add each parsed item,
counting the ones `AddItem` reports as new. -/
def processFeed : Store → List Intelligence → Store × Nat
  | s, [] => (s, 0)
  | s, item :: rest =>
    let r := AddItem s item
    let res := processFeed r.2 rest
    (res.1, if r.1 then res.2 + 1 else res.2)

/-- A sequence of `AddItem` inserts applied to the fresh store. -/
def applyAdds (items : List Intelligence) : Store :=
  items.foldl (fun s it => (AddItem s it).2) empty

end MemStore

/-! ## Engine run-state (the two engine.go drafts)

The mutex-guarded draft serialises `Start`/`Stop`, so its call
semantics are modelled as sequential transitions on the engine state.
`loops` counts the live `run`/`updateLoop` goroutines. -/

namespace EngineA

open Infopulse

/-- Mutex-guarded engine draft: its run flag. -/
structure Engine where
  isRunning : Bool
  loops : Nat
deriving DecidableEq, Repr

/-- Guarded `Start` (engine.go draft with `isRunning`): error without
any state change when already running, otherwise mark running and spawn
the run loop. -/
def Start (e : Engine) : Except Str Engine :=
  if e.isRunning then Except.error (str "engine is already running")
  else Except.ok { isRunning := true, loops := e.loops + 1 }

/-- Guarded `Stop`: a no-op returning nil when already stopped;
otherwise close the stop channel, wait for the loop to drain, and clear
the flag.  The Go function returns nil on every path. -/
def Stop (e : Engine) : Except Str Engine :=
  if e.isRunning then Except.ok { isRunning := false, loops := 0 }
  else Except.ok e

end EngineA

namespace EngineB

open Infopulse

/-- Unguarded engine draft: it keeps no run flag, only the stop channel
and the goroutine wait group. -/
structure Engine where
  stopClosed : Bool
  loops : Nat
deriving DecidableEq, Repr

/-- Unguarded `Start`: unconditionally spawns another update loop and
returns nil. -/
def Start (e : Engine) : Except Str Engine :=
  Except.ok { e with loops := e.loops + 1 }

/-- Unguarded `Stop`: `close(e.stopChan)` panics when the channel is
already closed; otherwise it signals the loop, waits, and returns. -/
def Stop (e : Engine) : Except Str Engine :=
  if e.stopClosed then Except.error (str "panic: close of closed channel")
  else Except.ok { stopClosed := true, loops := 0 }

end EngineB

/-! ## Bounded fetch concurrency

The mutex-guarded draft bounds in-flight fetches with a buffered
channel of capacity `MaxConcurrentFetches` used as a semaphore
(`fetchAllFeeds`): a slot is acquired before each worker goroutine is
spawned and released when its fetch finishes, so a send on a full
buffer blocks and the number of held slots is exactly the number of
in-flight fetches.  The other draft runs a fixed pool of
`MaxConcurrentFetches` workers (default 5 when non-positive), each
fetching one source at a time. -/

namespace Concurrency

/-- A semaphore event: a buffered-channel send (acquire) or receive
(release). -/
inductive SemEvent where
  | acquire
  | release
deriving DecidableEq, Repr

/-- One step of the buffered channel of capacity `cap` holding `held`
slots: a send blocks (no step) when the buffer is full, a receive
blocks when it is empty. -/
def semStep (cap held : Nat) : SemEvent → Option Nat
  | SemEvent.acquire => if held < cap then some (held + 1) else none
  | SemEvent.release => if 0 < held then some (held - 1) else none

/-- Run a sequence of semaphore events from `held` occupied slots. -/
def semRun (cap : Nat) : Nat → List SemEvent → Option Nat
  | held, [] => some held
  | held, e :: es =>
    match semStep cap held e with
    | none => none
    | some h => semRun cap h es

/-- Worker-pool draft `updateAllFeeds`: the effective pool size, with
the fixed default of 5 when the configured value is not positive. -/
def workerCount (maxConcurrentFetches : Int) : Nat :=
  if maxConcurrentFetches ≤ 0 then 5 else maxConcurrentFetches.toNat

/-- One fetch execution in the worker-pool draft: the worker that ran
it and the time interval during which it was running. -/
structure FetchOp where
  worker : Nat
  tStart : Nat
  tEnd : Nat
deriving DecidableEq, Repr

/-- Two fetch executions overlap in time. -/
def overlaps (f g : FetchOp) : Prop :=
  f.tStart ≤ g.tEnd ∧ g.tStart ≤ f.tEnd

instance (f g : FetchOp) : Decidable (overlaps f g) := by
  unfold overlaps
  infer_instance

end Concurrency

/-! ## Concrete inputs used by the counterexamples and witnesses -/

/-- Identity stand-in digest for concrete runs; the dedup decisions the
concrete runs exercise never consult the digest value. -/
def md5id : Str → Str := fun s => s

/-- A configured source with one category. -/
def srcA : FeedSource :=
  { ID := str "src-a"
    Name := str "Source A"
    URL := str "http://a"
    Categories := [str "cybersec"]
    FetchMethod := str "rss"
    UpdateFreq := 60
    Enabled := true }

/-- A feed entry that has a title but no link. -/
def entryTitleOnly : FeedItem :=
  { Title := str "t"
    Link := []
    GUID := str "g"
    Description := str "d"
    Content := []
    PublishedParsed := some 10
    UpdatedParsed := none }

/-- A feed entry with the CRITICAL keyword in its title and no
vulnerability-identifier pattern anywhere. -/
def entryCrit : FeedItem :=
  { Title := str "CRITICAL flaw in router firmware"
    Link := str "http://x"
    GUID := str "g2"
    Description := str "a severe bug"
    Content := []
    PublishedParsed := some 10
    UpdatedParsed := none }

/-- A feed entry without a native identifier. -/
def entryNoGuid : FeedItem :=
  { Title := str "t"
    Link := str "l"
    GUID := []
    Description := str "d"
    Content := []
    PublishedParsed := some 7
    UpdatedParsed := none }

/-- Stored record with id `a` and fingerprint `h`. -/
def recA : Intelligence :=
  { ID := str "a"
    SourceID := str "s"
    Category := str "cybersec"
    Title := str "t1"
    URL := str "u1"
    Summary := str "m1"
    Published := 1
    Retrieved := 1
    Hash := str "h"
    Severity := [] }

/-- Stored record with id `b` and the same fingerprint `h`. -/
def recB : Intelligence :=
  { ID := str "b"
    SourceID := str "s"
    Category := str "cybersec"
    Title := str "t2"
    URL := str "u2"
    Summary := str "m2"
    Published := 2
    Retrieved := 2
    Hash := str "h"
    Severity := [] }

/-- Record of category `c` with the older publish timestamp. -/
def recOld : Intelligence :=
  { ID := str "o"
    SourceID := str "s"
    Category := str "c"
    Title := str "old"
    URL := str "u3"
    Summary := str "m3"
    Published := 1
    Retrieved := 1
    Hash := str "ho"
    Severity := [] }

/-- Record of category `c` with the newer publish timestamp. -/
def recNew : Intelligence :=
  { ID := str "n"
    SourceID := str "s"
    Category := str "c"
    Title := str "new"
    URL := str "u4"
    Summary := str "m4"
    Published := 5
    Retrieved := 5
    Hash := str "hn2"
    Severity := [] }

/-- A 504-character title. -/
def longTitle : Str := List.replicate 504 'a'

/-- A feed entry with neither description nor content and a 504
character title. -/
def entryLong : FeedItem :=
  { Title := longTitle
    Link := str "l"
    GUID := []
    Description := []
    Content := []
    PublishedParsed := none
    UpdatedParsed := none }

/-! ## Substring and severity lemmas -/

theorem leadsWith_append {needle hay t : Str}
    (h : leadsWith needle hay = true) : leadsWith needle (hay ++ t) = true := by
  induction needle generalizing hay with
  | nil => simp [leadsWith]
  | cons a as ih =>
    cases hay with
    | nil => simp [leadsWith] at h
    | cons b bs =>
      simp only [leadsWith, Bool.and_eq_true] at h
      simp only [List.cons_append, leadsWith, Bool.and_eq_true]
      exact ⟨h.1, ih h.2⟩

theorem containsSub_append {hay needle t : Str}
    (h : containsSub hay needle = true) :
    containsSub (hay ++ t) needle = true := by
  induction hay with
  | nil =>
    unfold containsSub at h
    split at h
    · next hpre =>
      have : needle = [] := by
        cases needle with
        | nil => rfl
        | cons c cs => simp [leadsWith] at hpre
      subst this
      unfold containsSub
      simp [leadsWith]
    · simp at h
  | cons c cs ih =>
    unfold containsSub at h
    split at h
    · next hpre =>
      unfold containsSub
      rw [if_pos]
      exact leadsWith_append hpre
    · next hpre =>
      unfold containsSub
      split
      · rfl
      · exact ih h

theorem toLowerStr_append (a b : Str) :
    toLowerStr (a ++ b) = toLowerStr a ++ toLowerStr b := by
  simp [toLowerStr]

theorem estimateSeverity_ne_nil (title description : Str) :
    estimateSeverity title description ≠ [] := by
  unfold estimateSeverity
  dsimp only
  split_ifs <;> decide

theorem estimateSeverity_critical {title description : Str}
    (h : containsSub (toLowerStr (title ++ str " " ++ description))
      (str "critical") = true) :
    estimateSeverity title description = str "CRITICAL" := by
  unfold estimateSeverity
  dsimp only
  rw [if_pos h]

/-- A feed entry carrying both the vulnerability-identifier pattern and
the CRITICAL keyword in its title. -/
def entryCVECrit : FeedItem :=
  { Title := str "CVE-2024 Critical bug"
    Link := str "http://y"
    GUID := str "g3"
    Description := []
    Content := []
    PublishedParsed := some 10
    UpdatedParsed := none }

/-- Claim C6, counterexample: the parser drops an entry that has a
title but lacks a link, although the claim states that an entry is
dropped only when it is missing both a title and a link. -/
theorem c6_counterexample :
    entryTitleOnly.Title ≠ [] ∧
    parseItems md5id srcA 0 [entryTitleOnly] = [] := by
  exact ⟨by decide, by rfl⟩

/-- Claim C6, amended: during feed parsing an entry is silently dropped
exactly when it is missing a title or missing a link; every entry that
has both a title and a link is normalized into the output sequence, in
order. -/
theorem c6_drop_rule (md5h : Str → Str) (source : FeedSource) (now : Nat)
    (items : List FeedItem) :
    parseItems md5h source now items =
      (items.filter (fun i => decide (i.Title ≠ [] ∧ i.Link ≠ []))).map
        (normalizeItem md5h source now) := by
  induction items with
  | nil => rfl
  | cons item rest ih =>
    by_cases h : item.Title = [] ∨ item.Link = []
    · rw [parseItems, if_pos h, List.filter_cons, ih]
      have : ¬(item.Title ≠ [] ∧ item.Link ≠ []) := by tauto
      simp [this]
    · rw [parseItems, if_neg h, List.filter_cons, ih]
      have : item.Title ≠ [] ∧ item.Link ≠ [] := by tauto
      simp [this]

/-- Claim C7, counterexample: this entry has the keyword CRITICAL in
its title but no vulnerability-identifier pattern, and after ingestion
its severity field is empty rather than CRITICAL as the claim asserts. -/
theorem c7_counterexample :
    containsSub entryCrit.Title (str "CRITICAL") = true ∧
    (normalizeItem md5id srcA 0 entryCrit).Severity = [] := by
  exact ⟨by decide, by decide⟩

/-- Claim C7, amended: a severity tag is assigned iff the pattern CVE-
occurs case-insensitively in the entry title or description; when
assigned it is `estimateSeverity`, which matches keywords over the
lowercased title-plus-description with priority CRITICAL, HIGH, MEDIUM,
LOW and default MEDIUM; and a record whose title contains both the
vulnerability pattern and the CRITICAL keyword gets severity CRITICAL. -/
theorem c7_severity_rule :
    (∀ (md5h : Str → Str) (source : FeedSource) (now : Nat) (item : FeedItem),
      ((normalizeItem md5h source now item).Severity ≠ [] ↔
        (containsCVE item.Title || containsCVE item.Description) = true)) ∧
    (∀ (md5h : Str → Str) (source : FeedSource) (now : Nat) (item : FeedItem),
      (containsCVE item.Title || containsCVE item.Description) = true →
      (normalizeItem md5h source now item).Severity =
        estimateSeverity item.Title item.Description) ∧
    (∀ title description : Str,
      containsSub (toLowerStr (title ++ str " " ++ description))
          (str "critical") = true →
        estimateSeverity title description = str "CRITICAL") ∧
    (∀ title description : Str,
      containsSub (toLowerStr (title ++ str " " ++ description))
          (str "critical") = false →
      containsSub (toLowerStr (title ++ str " " ++ description))
          (str "high") = true →
        estimateSeverity title description = str "HIGH") ∧
    (∀ title description : Str,
      containsSub (toLowerStr (title ++ str " " ++ description))
          (str "critical") = false →
      containsSub (toLowerStr (title ++ str " " ++ description))
          (str "high") = false →
      containsSub (toLowerStr (title ++ str " " ++ description))
          (str "medium") = false →
      containsSub (toLowerStr (title ++ str " " ++ description))
          (str "low") = false →
        estimateSeverity title description = str "MEDIUM") ∧
    (∀ (md5h : Str → Str) (source : FeedSource) (now : Nat) (item : FeedItem),
      containsCVE item.Title = true →
      containsSub (toLowerStr item.Title) (str "critical") = true →
        (normalizeItem md5h source now item).Severity = str "CRITICAL") := by
  refine ⟨?_, ?_, ?_, ?_, ?_, ?_⟩
  · intro md5h source now item
    simp only [normalizeItem]
    by_cases h : (containsCVE item.Title || containsCVE item.Description) = true
    · simp [h, estimateSeverity_ne_nil]
    · have hb : (containsCVE item.Title || containsCVE item.Description) = false := by
        revert h
        cases containsCVE item.Title || containsCVE item.Description <;> simp
      rw [if_neg (by simp [hb])]
      simp [hb]
  · intro md5h source now item h
    simp [normalizeItem, h]
  · intro title description h
    exact estimateSeverity_critical h
  · intro title description h1 h2
    unfold estimateSeverity
    dsimp only
    rw [if_neg (by simp only [h1]; decide), if_pos h2]
  · intro title description h1 h2 h3 h4
    unfold estimateSeverity
    dsimp only
    rw [if_neg (by simp only [h1]; decide), if_neg (by simp only [h2]; decide),
      if_neg (by simp only [h3]; decide), if_neg (by simp only [h4]; decide)]
  · intro md5h source now item h1 h2
    have hcond : (containsCVE item.Title || containsCVE item.Description) = true := by
      simp [h1]
    simp only [normalizeItem, hcond, if_pos]
    apply estimateSeverity_critical
    have hlow :=
      @containsSub_append (toLowerStr item.Title) (str "critical")
        (toLowerStr (str " ") ++ toLowerStr item.Description) h2
    have heq : toLowerStr (item.Title ++ str " " ++ item.Description) =
        toLowerStr item.Title ++
          (toLowerStr (str " ") ++ toLowerStr item.Description) := by
      simp [toLowerStr]
    rw [heq]
    exact hlow

/-- Witness for C7: concrete discharge of the amended CRITICAL case on
an entry whose title contains both the pattern and the keyword. -/
theorem c7_witness :
    containsCVE entryCVECrit.Title = true ∧
    containsSub (toLowerStr entryCVECrit.Title) (str "critical") = true ∧
    (normalizeItem md5id srcA 0 entryCVECrit).Severity = str "CRITICAL" :=
  ⟨by decide, by decide,
    c7_severity_rule.2.2.2.2.2 md5id srcA 0 entryCVECrit (by decide) (by decide)⟩

/-! ## Summary bounds (claim C10) -/

theorem stripHTMLAndTruncate_length (s : Str) (n : Nat) :
    (stripHTMLAndTruncate s n).length ≤ n + 3 := by
  unfold stripHTMLAndTruncate
  dsimp only
  split
  · next h =>
    rw [List.length_append, List.length_take]
    have : (str "...").length = 3 := by decide
    omega
  · next h => omega

/-- Claim C10: when a feed entry has neither a description nor content,
the summary is the raw title verbatim (no stripping, no truncation);
description- and content-derived summaries are bounded by 500 characters
plus the 3-character truncation marker. -/
theorem c10_title_fallback :
    (∀ item : FeedItem, item.Description = [] → item.Content = [] →
      getSummary item = item.Title) ∧
    (∀ item : FeedItem, item.Description ≠ [] →
      (getSummary item).length ≤ 503) ∧
    (∀ item : FeedItem, item.Description = [] → item.Content ≠ [] →
      (getSummary item).length ≤ 503) := by
  refine ⟨?_, ?_, ?_⟩
  · intro item h1 h2
    simp [getSummary, h1, h2]
  · intro item h1
    simp only [getSummary, if_pos h1]
    exact stripHTMLAndTruncate_length item.Description 500
  · intro item h1 h2
    simp only [getSummary, h1]
    simp only [ne_eq, not_true_eq_false, if_false, if_pos h2]
    exact stripHTMLAndTruncate_length item.Content 500

/-- Witness for C10: an entry with a 504-character title and no
description or content keeps the full title as its summary, exceeding
the 503-character cap of the stripped-and-truncated paths. -/
theorem c10_witness :
    entryLong.Description = [] ∧ entryLong.Content = [] ∧
    getSummary entryLong = entryLong.Title ∧
    503 < (getSummary entryLong).length := by
  refine ⟨rfl, rfl, c10_title_fallback.1 entryLong rfl rfl, ?_⟩
  rw [c10_title_fallback.1 entryLong rfl rfl]
  show 503 < longTitle.length
  rw [longTitle, List.length_replicate]
  omega

/-! ## SQLite store lemmas (claims C1, C2) -/

/-- The id column of the table. -/
def idsOf (db : List Intelligence) : List Str := db.map (fun r => r.ID)

theorem insertOrIgnore_nodup {db : List Intelligence} {it : Intelligence}
    (h : (idsOf db).Nodup) : (idsOf (SqlStore.insertOrIgnore db it)).Nodup := by
  unfold SqlStore.insertOrIgnore
  split
  · exact h
  · next hne =>
    unfold idsOf
    rw [List.map_append, List.map_cons, List.map_nil, List.nodup_append]
    refine ⟨h, List.nodup_singleton _, ?_⟩
    intro a ha hb
    rcases List.mem_map.mp ha with ⟨r, hr, hrid⟩
    simp only [List.mem_singleton] at hb
    exact hne ⟨r, hr, by rw [hrid, hb]⟩

theorem saveIntelligence_nodup (batch : List Intelligence) :
    ∀ db : List Intelligence, (idsOf db).Nodup →
      (idsOf (SqlStore.SaveIntelligence db batch).1).Nodup := by
  induction batch with
  | nil => intro db h; exact h
  | cons it rest ih =>
    intro db h
    simp only [SqlStore.SaveIntelligence]
    exact ih _ (insertOrIgnore_nodup h)

theorem applyBatches_go_nodup (batches : List (List Intelligence)) :
    ∀ db : List Intelligence, (idsOf db).Nodup →
      (idsOf (batches.foldl
        (fun db b => (SqlStore.SaveIntelligence db b).1) db)).Nodup := by
  induction batches with
  | nil => intro db h; exact h
  | cons b rest ih =>
    intro db h
    exact ih _ (saveIntelligence_nodup b db h)

theorem saveIntelligence_count (batch : List Intelligence) :
    ∀ db : List Intelligence,
      (SqlStore.SaveIntelligence db batch).2 = batch.length := by
  induction batch with
  | nil => intro db; rfl
  | cons it rest ih =>
    intro db
    simp only [SqlStore.SaveIntelligence, List.length_cons]
    rw [ih]

/-! ## In-memory store lemmas (claims C1, C2, C3) -/

theorem alookup_aremove {α : Type} {k k' : Str} (h : k ≠ k')
    (l : List (Str × α)) :
    MemStore.alookup k (MemStore.aremove k' l) = MemStore.alookup k l := by
  induction l with
  | nil => rfl
  | cons p rest ih =>
    obtain ⟨k0, v⟩ := p
    simp only [MemStore.aremove, MemStore.alookup]
    by_cases h0 : k0 = k'
    · rw [if_pos h0, ih, if_neg (by rw [h0]; exact fun hk => h hk.symm)]
    · rw [if_neg h0]
      simp only [MemStore.alookup]
      by_cases h1 : k0 = k
      · rw [if_pos h1, if_pos h1]
      · rw [if_neg h1, if_neg h1, ih]

theorem alookup_ainsert {α : Type} (k k' : Str) (v : α) (l : List (Str × α)) :
    MemStore.alookup k (MemStore.ainsert k' v l) =
      if k' = k then some v else MemStore.alookup k l := by
  unfold MemStore.ainsert
  simp only [MemStore.alookup]
  by_cases h : k' = k
  · rw [if_pos h, if_pos h]
  · rw [if_neg h, if_neg h, alookup_aremove (fun hk => h hk.symm) l]

theorem aremove_sublist {α : Type} (k : Str) (l : List (Str × α)) :
    List.Sublist (MemStore.aremove k l) l := by
  induction l with
  | nil => simp [MemStore.aremove]
  | cons p rest ih =>
    obtain ⟨k0, v⟩ := p
    simp only [MemStore.aremove]
    split
    · exact ih.trans (List.sublist_cons_self _ _)
    · exact List.Sublist.cons₂ _ ih

/-- The fingerprint invariant of the in-memory store: every visible
item has its hash indexed, and no two visible items share a hash. -/
def HashInv (s : MemStore.Store) : Prop :=
  (∀ p ∈ s.items, (MemStore.alookup p.2.Hash s.itemsByHash).isSome = true) ∧
  (s.items.map (fun p => p.2.Hash)).Nodup

theorem hashInv_empty : HashInv MemStore.empty := by
  constructor
  · intro p hp
    simp [MemStore.empty] at hp
  · simp [MemStore.empty]

theorem addItem_hashInv {s : MemStore.Store} {it : Intelligence}
    (h : HashInv s) : HashInv (MemStore.AddItem s it).2 := by
  unfold MemStore.AddItem
  split
  · exact h
  · next hnone =>
    dsimp only
    constructor
    · intro p hp
      unfold MemStore.ainsert at hp
      rcases List.mem_cons.mp hp with hp | hp
      · subst hp
        rw [alookup_ainsert]
        simp
      · have hmem : p ∈ s.items := (aremove_sublist it.ID s.items).subset hp
        rw [alookup_ainsert]
        by_cases he : it.Hash = p.2.Hash
        · rw [if_pos he]
          simp
        · rw [if_neg he]
          exact h.1 p hmem
    · show ((MemStore.ainsert it.ID it s.items).map (fun p => p.2.Hash)).Nodup
      unfold MemStore.ainsert
      rw [List.map_cons, List.nodup_cons]
      constructor
      · intro hmem
        rcases List.mem_map.mp hmem with ⟨p, hp, hph⟩
        have hmem' : p ∈ s.items := (aremove_sublist it.ID s.items).subset hp
        have := h.1 p hmem'
        rw [hph] at this
        exact hnone this
      · exact List.Nodup.sublist
          (List.Sublist.map _ (aremove_sublist it.ID s.items)) h.2

theorem applyAdds_go_hashInv (items : List Intelligence) :
    ∀ s : MemStore.Store, HashInv s →
      HashInv (items.foldl (fun s it => (MemStore.AddItem s it).2) s) := by
  induction items with
  | nil => intro s h; exact h
  | cons it rest ih =>
    intro s h
    exact ih _ (addItem_hashInv h)

/-- Claim C1, counterexample: two batches whose records carry the same
fingerprint but different identifiers both survive in the SQLite store,
so fingerprint uniqueness is not an invariant it enforces. -/
theorem c1_counterexample :
    SqlStore.applyBatches [[recA], [recB]] = [recA, recB] ∧
    recA.Hash = recB.Hash ∧ recA.ID ≠ recB.ID := by
  refine ⟨by decide, by decide, by decide⟩

/-- Claim C1, amended: the uniqueness invariant the SQLite store
enforces by itself is on the identifier (the primary key), not the
fingerprint: after any sequence of batch inserts no two visible rows
share an id.  Fingerprint uniqueness is enforced by the in-memory draft
store: after any sequence of AddItem inserts starting from the fresh
store, no two visible records share a hash. -/
theorem c1_uniqueness_invariants :
    (∀ batches : List (List Intelligence),
      ((SqlStore.applyBatches batches).map (fun r => r.ID)).Nodup) ∧
    (∀ items : List Intelligence,
      ((MemStore.applyAdds items).items.map (fun p => p.2.Hash)).Nodup) := by
  constructor
  · intro batches
    have h := applyBatches_go_nodup batches [] (by simp [idsOf])
    exact h
  · intro items
    exact (applyAdds_go_hashInv items MemStore.empty hashInv_empty).2

/-- Claim C2, counterexample: a record whose fingerprint is already
stored under a different id is inserted rather than skipped, and a
record skipped for an id collision is still counted, so the returned
count (1) differs from the number actually inserted (0). -/
theorem c2_counterexample :
    recB.Hash = recA.Hash ∧
    (SqlStore.SaveIntelligence [recA] [recB]).1 = [recA, recB] ∧
    (SqlStore.SaveIntelligence [recA] [recA]).1 = [recA] ∧
    (SqlStore.SaveIntelligence [recA] [recA]).2 = 1 := by
  refine ⟨by decide, by decide, by decide, by decide⟩

/-- Claim C2, amended: the SQLite batch insert silently skips (without
error) a record whose identifier is already present, but its returned
count is the full batch length, counting skipped records; in the
in-memory draft, AddItem reports a fingerprint duplicate as
not-new without error and leaves the store unchanged, so the per-feed
new-item count excludes skipped duplicates. -/
theorem c2_insert_count :
    (∀ (db batch : List Intelligence),
      (SqlStore.SaveIntelligence db batch).2 = batch.length) ∧
    (∀ (db : List Intelligence) (it : Intelligence),
      (∃ r ∈ db, r.ID = it.ID) →
        SqlStore.SaveIntelligence db [it] = (db, 1)) ∧
    (∀ (s : MemStore.Store) (it : Intelligence),
      (MemStore.alookup it.Hash s.itemsByHash).isSome = true →
        MemStore.AddItem s it = (false, s)) := by
  refine ⟨?_, ?_, ?_⟩
  · intro db batch
    exact saveIntelligence_count batch db
  · intro db it h
    simp only [SqlStore.SaveIntelligence, SqlStore.insertOrIgnore, if_pos h]
  · intro s it h
    unfold MemStore.AddItem
    rw [if_pos h]

/-- Witness for C2: concrete discharge of the duplicate-skipping
clauses on a one-row table and a one-item store. -/
theorem c2_witness :
    (∃ r ∈ [recA], r.ID = recA.ID) ∧
    SqlStore.SaveIntelligence [recA] [recA] = ([recA], 1) ∧
    (MemStore.alookup recB.Hash
      (MemStore.AddItem MemStore.empty recA).2.itemsByHash).isSome = true ∧
    MemStore.AddItem (MemStore.AddItem MemStore.empty recA).2 recB =
      (false, (MemStore.AddItem MemStore.empty recA).2) := by
  refine ⟨⟨recA, by decide, rfl⟩, ?_, by decide, ?_⟩
  · exact c2_insert_count.2.1 [recA] recA ⟨recA, by decide, rfl⟩
  · exact c2_insert_count.2.2 _ recB (by decide)

/-! ## Ordering lemmas (claims C4, C5) -/

theorem mem_insertDesc {it y : Intelligence} {l : List Intelligence}
    (h : y ∈ SqlStore.insertDesc it l) : y = it ∨ y ∈ l := by
  induction l with
  | nil =>
    simp [SqlStore.insertDesc] at h
    exact Or.inl h
  | cons x xs ih =>
    unfold SqlStore.insertDesc at h
    split at h
    · rcases List.mem_cons.mp h with h | h
      · exact Or.inl h
      · exact Or.inr h
    · rcases List.mem_cons.mp h with h | h
      · exact Or.inr (by rw [h]; exact List.mem_cons_self _ _)
      · rcases ih h with h | h
        · exact Or.inl h
        · exact Or.inr (List.mem_cons_of_mem _ h)

theorem pairwise_insertDesc {it : Intelligence} {l : List Intelligence}
    (h : List.Pairwise (fun a b => b.Published ≤ a.Published) l) :
    List.Pairwise (fun a b => b.Published ≤ a.Published)
      (SqlStore.insertDesc it l) := by
  induction l with
  | nil => simp [SqlStore.insertDesc]
  | cons x xs ih =>
    rw [List.pairwise_cons] at h
    unfold SqlStore.insertDesc
    split
    · next hlt =>
      rw [List.pairwise_cons]
      constructor
      · intro y hy
        rcases List.mem_cons.mp hy with hy | hy
        · rw [hy]; exact le_of_lt hlt
        · exact le_trans (h.1 y hy) (le_of_lt hlt)
      · rw [List.pairwise_cons]
        exact h
    · next hge =>
      rw [List.pairwise_cons]
      constructor
      · intro y hy
        rcases mem_insertDesc hy with hy | hy
        · rw [hy]; omega
        · exact h.1 y hy
      · exact ih h.2

theorem pairwise_sortDesc (l : List Intelligence) :
    List.Pairwise (fun a b => b.Published ≤ a.Published)
      (SqlStore.sortDesc l) := by
  unfold SqlStore.sortDesc
  induction l with
  | nil => simp
  | cons x xs ih =>
    simp only [List.foldr_cons]
    exact pairwise_insertDesc ih

/-- Claim C4, counterexample: the in-memory category query returns the
category slice in insertion order; inserting the older-published record
first yields an output that is not sorted by publish timestamp
descending. -/
theorem c4_counterexample :
    ¬ List.Pairwise (fun a b => b.Published ≤ a.Published)
      (MemStore.GetItemsByCategory
        (MemStore.AddItem (MemStore.AddItem MemStore.empty recOld).2 recNew).2
        (str "c") 10) := by
  decide

/-- Claim C4, amended: the SQLite latest-items query is sorted by
publish timestamp descending, with or without a category filter; the
in-memory draft queries return the items in map or insertion order
without sorting. -/
theorem c4_sql_sorted (db : List Intelligence) (category : Str)
    (limit : Int) :
    List.Pairwise (fun a b => b.Published ≤ a.Published)
      (SqlStore.GetLatestIntelligence db category limit) := by
  unfold SqlStore.GetLatestIntelligence SqlStore.sqlLimit
  dsimp only
  split
  · exact pairwise_sortDesc _
  · exact List.Pairwise.sublist (List.take_sublist _ _) (pairwise_sortDesc _)

/-- Claim C5, counterexample: with one stored record, the SQLite
latest-items query at limit 0 returns the empty sequence, not every
stored record as the claim asserts. -/
theorem c5_counterexample :
    SqlStore.GetTotalCount [recA] = 1 ∧
    SqlStore.GetLatestIntelligence [recA] [] 0 = [] := by
  refine ⟨by decide, by decide⟩

/-- Claim C5, amended: the in-memory draft queries return all matching
records whenever the limit is not positive; the SQLite query returns
all matching records for a negative limit but the empty sequence for
limit 0 (SQLite LIMIT 0 semantics). -/
theorem c5_limit_rule :
    (∀ (s : MemStore.Store) (limit : Int), limit ≤ 0 →
      MemStore.GetLatestItems s limit = s.items.map (fun p => p.2)) ∧
    (∀ (s : MemStore.Store) (category : Str) (limit : Int), limit ≤ 0 →
      MemStore.GetItemsByCategory s category limit =
        (MemStore.alookup category s.itemsByCategory).getD []) ∧
    (∀ (db : List Intelligence) (category : Str) (limit : Int), limit < 0 →
      SqlStore.GetLatestIntelligence db category limit =
        SqlStore.sortDesc (if category = [] then db
          else db.filter (fun r => r.Category = category))) ∧
    (∀ (db : List Intelligence) (category : Str),
      SqlStore.GetLatestIntelligence db category 0 = []) := by
  refine ⟨?_, ?_, ?_, ?_⟩
  · intro s limit h
    unfold MemStore.GetLatestItems
    dsimp only
    rw [if_neg]
    intro hc
    omega
  · intro s category limit h
    unfold MemStore.GetItemsByCategory
    dsimp only
    rw [if_neg]
    intro hc
    omega
  · intro db category limit h
    unfold SqlStore.GetLatestIntelligence SqlStore.sqlLimit
    dsimp only
    rw [if_pos h]
  · intro db category
    unfold SqlStore.GetLatestIntelligence SqlStore.sqlLimit
    dsimp only
    rw [if_neg (by omega)]
    simp

/-- Witness for C5: concrete discharge of the limit rules on one-record
stores at limits 0 and -1. -/
theorem c5_witness :
    ((0 : Int) ≤ 0 ∧
      MemStore.GetLatestItems (MemStore.AddItem MemStore.empty recA).2 0 =
        (MemStore.AddItem MemStore.empty recA).2.items.map (fun p => p.2)) ∧
    ((-1 : Int) < 0 ∧
      SqlStore.GetLatestIntelligence [recA] [] (-1) =
        SqlStore.sortDesc (if ([] : Str) = [] then [recA]
          else List.filter (fun r => r.Category = []) [recA])) := by
  constructor
  · exact ⟨le_refl 0, c5_limit_rule.1 _ 0 (le_refl 0)⟩
  · exact ⟨by omega, c5_limit_rule.2.2.1 [recA] [] (-1) (by omega)⟩

/-! ## Idempotent re-ingestion (claim C3) -/

theorem addItem_hash_mono {s : MemStore.Store} {it : Intelligence}
    {h : Str} (hs : (MemStore.alookup h s.itemsByHash).isSome = true) :
    (MemStore.alookup h (MemStore.AddItem s it).2.itemsByHash).isSome = true := by
  unfold MemStore.AddItem
  split
  · exact hs
  · dsimp only
    rw [alookup_ainsert]
    split
    · simp
    · exact hs

theorem addItem_own_hash (s : MemStore.Store) (it : Intelligence) :
    (MemStore.alookup it.Hash (MemStore.AddItem s it).2.itemsByHash).isSome
      = true := by
  unfold MemStore.AddItem
  split
  · next hs => exact hs
  · dsimp only
    rw [alookup_ainsert, if_pos rfl]
    simp

theorem processFeed_hash_mono (items : List Intelligence) :
    ∀ (s : MemStore.Store) (h : Str),
      (MemStore.alookup h s.itemsByHash).isSome = true →
      (MemStore.alookup h
        (MemStore.processFeed s items).1.itemsByHash).isSome = true := by
  induction items with
  | nil => intro s h hs; exact hs
  | cons it rest ih =>
    intro s h hs
    simp only [MemStore.processFeed]
    exact ih _ h (addItem_hash_mono hs)

theorem processFeed_hashes_present (items : List Intelligence) :
    ∀ (s : MemStore.Store), ∀ it ∈ items,
      (MemStore.alookup it.Hash
        (MemStore.processFeed s items).1.itemsByHash).isSome = true := by
  induction items with
  | nil => intro s it hit; cases hit
  | cons x rest ih =>
    intro s it hit
    rcases List.mem_cons.mp hit with hit | hit
    · subst hit
      simp only [MemStore.processFeed]
      exact processFeed_hash_mono rest _ _ (addItem_own_hash s it)
    · simp only [MemStore.processFeed]
      exact ih _ it hit

theorem processFeed_of_present (items : List Intelligence) :
    ∀ (s : MemStore.Store),
      (∀ it ∈ items, (MemStore.alookup it.Hash s.itemsByHash).isSome = true) →
      MemStore.processFeed s items = (s, 0) := by
  induction items with
  | nil => intro s _; rfl
  | cons it rest ih =>
    intro s hall
    have hdup : MemStore.AddItem s it = (false, s) := by
      unfold MemStore.AddItem
      rw [if_pos (hall it (List.mem_cons_self _ _))]
    simp only [MemStore.processFeed, hdup]
    rw [ih s (fun x hx => hall x (List.mem_cons_of_mem _ hx))]
    simp

theorem parseItems_hash_eq (md5h : Str → Str) (source : FeedSource)
    (n1 n2 : Nat) (payload : List FeedItem) :
    (parseItems md5h source n2 payload).map (fun r => r.Hash) =
      (parseItems md5h source n1 payload).map (fun r => r.Hash) := by
  induction payload with
  | nil => rfl
  | cons item rest ih =>
    by_cases h : item.Title = [] ∨ item.Link = []
    · rw [parseItems, if_pos h, parseItems, if_pos h, ih]
    · rw [parseItems, if_neg h, parseItems, if_neg h,
        List.map_cons, List.map_cons, ih]
      rfl

/-- Claim C3, counterexample, cycle one: one guid-less entry ingested
through the SQLite pipeline. -/
def sqlDb1 : List Intelligence :=
  (SqlStore.SaveIntelligence [] (parseItems md5id srcA 1 [entryNoGuid])).1

/-- Claim C3, counterexample, cycle two: the identical payload ingested
again at a later clock. -/
def sqlDb2 : List Intelligence :=
  (SqlStore.SaveIntelligence sqlDb1 (parseItems md5id srcA 2 [entryNoGuid])).1

/-- Claim C3, counterexample: re-ingesting the identical guid-less
payload through the SQLite pipeline inserts the record again (the
fallback id embeds the clock), so the total count grows from 1 to 2. -/
theorem c3_counterexample :
    SqlStore.GetTotalCount sqlDb1 = 1 ∧ SqlStore.GetTotalCount sqlDb2 = 2 := by
  refine ⟨by decide, by decide⟩

/-- Claim C3, amended: ingestion through the in-memory draft store is
idempotent on identical payloads, guid or not: the second cycle leaves
the store unchanged and inserts zero records, because the content hash
does not depend on the clock.  Through the SQLite store the property
holds only for entries with a native identifier; a guid-less entry is
re-inserted each cycle under a fresh clock-derived id. -/
theorem c3_idempotent (md5h : Str → Str) (source : FeedSource)
    (payload : List FeedItem) (n1 n2 : Nat) (st0 : MemStore.Store) :
    MemStore.processFeed
      (MemStore.processFeed st0 (parseItems md5h source n1 payload)).1
      (parseItems md5h source n2 payload) =
      ((MemStore.processFeed st0 (parseItems md5h source n1 payload)).1, 0) := by
  apply processFeed_of_present
  intro it hit
  have hmap := parseItems_hash_eq md5h source n1 n2 payload
  have hmem : it.Hash ∈
      (parseItems md5h source n1 payload).map (fun r => r.Hash) := by
    rw [← hmap]
    exact List.mem_map_of_mem _ hit
  rcases List.mem_map.mp hmem with ⟨r, hr, hrh⟩
  rw [← hrh]
  exact processFeed_hashes_present _ _ r hr

/-! ## Engine run-state (claim C8) -/

/-- Claim C8, counterexample: the unguarded engine draft accepts Start
while a loop is already running (no error, second loop spawned), and
Stop when already stopped panics closing the closed stop channel. -/
theorem c8_counterexample :
    EngineB.Start { stopClosed := false, loops := 1 } =
      Except.ok { stopClosed := false, loops := 2 } ∧
    EngineB.Stop { stopClosed := true, loops := 0 } =
      Except.error (str "panic: close of closed channel") := by
  exact ⟨rfl, rfl⟩

/-- Claim C8, amended: the mutex-guarded engine draft follows the
Stopped to Running to Stopped state machine: Start on a running engine
errors without changing state, Start on a stopped engine transitions to
Running, Stop on a stopped engine is a no-op returning without error,
and Stop on a running engine transitions to Stopped.  The other draft
keeps no run flag: repeated Start spawns extra loops without error and
repeated Stop panics. -/
theorem c8_state_machine :
    (∀ e : EngineA.Engine, e.isRunning = true →
      EngineA.Start e = Except.error (str "engine is already running")) ∧
    (∀ e : EngineA.Engine, e.isRunning = false →
      EngineA.Start e = Except.ok { isRunning := true, loops := e.loops + 1 }) ∧
    (∀ e : EngineA.Engine, e.isRunning = false →
      EngineA.Stop e = Except.ok e) ∧
    (∀ e : EngineA.Engine, e.isRunning = true →
      EngineA.Stop e = Except.ok { isRunning := false, loops := 0 }) := by
  refine ⟨?_, ?_, ?_, ?_⟩
  · intro e h
    unfold EngineA.Start
    rw [if_pos h]
  · intro e h
    unfold EngineA.Start
    rw [if_neg (by rw [h]; simp)]
  · intro e h
    unfold EngineA.Stop
    rw [if_neg (by rw [h]; simp)]
  · intro e h
    unfold EngineA.Stop
    rw [if_pos h]

/-- Witness for C8: the state machine discharged on concrete engines in
each run-state. -/
theorem c8_witness :
    ((EngineA.Engine.mk true 1).isRunning = true ∧
      EngineA.Start (EngineA.Engine.mk true 1) =
        Except.error (str "engine is already running")) ∧
    ((EngineA.Engine.mk false 0).isRunning = false ∧
      EngineA.Stop (EngineA.Engine.mk false 0) =
        Except.ok (EngineA.Engine.mk false 0)) := by
  constructor
  · exact ⟨rfl, c8_state_machine.1 _ rfl⟩
  · exact ⟨rfl, c8_state_machine.2.2.1 _ rfl⟩

/-! ## Bounded fetch concurrency (claim C9) -/

theorem semRun_le (cap : Nat) (events : List Concurrency.SemEvent) :
    ∀ h0 held : Nat, h0 ≤ cap →
      Concurrency.semRun cap h0 events = some held → held ≤ cap := by
  induction events with
  | nil =>
    intro h0 held hle hrun
    simp only [Concurrency.semRun, Option.some.injEq] at hrun
    omega
  | cons e es ih =>
    intro h0 held hle hrun
    unfold Concurrency.semRun at hrun
    cases he : Concurrency.semStep cap h0 e with
    | none =>
      rw [he] at hrun
      cases hrun
    | some h1 =>
      rw [he] at hrun
      refine ih h1 held ?_ hrun
      unfold Concurrency.semStep at he
      cases e with
      | acquire =>
        by_cases hc : h0 < cap
        · rw [if_pos hc] at he
          simp only [Option.some.injEq] at he
          omega
        · rw [if_neg hc] at he
          cases he
      | release =>
        by_cases hc : 0 < h0
        · rw [if_pos hc] at he
          simp only [Option.some.injEq] at he
          omega
        · rw [if_neg hc] at he
          cases he

/-- Claim C9: within a cycle the number of simultaneously running
fetches never exceeds the configured bound.  First conjunct: in the
semaphore draft, any event sequence accepted by the capacity-W buffered
channel keeps the number of held slots (one per in-flight fetch) at or
below W.  Second conjunct: in the worker-pool draft, any set of
pairwise-overlapping fetch executions, each run by one of the
`workerCount` workers that process jobs sequentially, has at most
`workerCount` elements (default 5 when the configured value is not
positive). -/
theorem c9_bounded_concurrency :
    (∀ (cap : Nat) (events : List Concurrency.SemEvent) (h0 held : Nat),
      h0 ≤ cap → Concurrency.semRun cap h0 events = some held →
        held ≤ cap) ∧
    (∀ (w : Int) (s : Finset Concurrency.FetchOp),
      (∀ f ∈ s, f.worker < Concurrency.workerCount w) →
      (∀ f ∈ s, ∀ g ∈ s, f.worker = g.worker → f ≠ g →
        ¬ Concurrency.overlaps f g) →
      (∀ f ∈ s, ∀ g ∈ s, Concurrency.overlaps f g) →
        s.card ≤ Concurrency.workerCount w) := by
  constructor
  · intro cap events h0 held hle hrun
    exact semRun_le cap events h0 held hle hrun
  · intro w s hw hdisj hover
    have hcard : s.card ≤ (Finset.range (Concurrency.workerCount w)).card := by
      apply Finset.card_le_card_of_injOn (fun f => f.worker)
      · intro f hf
        rw [Finset.mem_range]
        exact hw f hf
      · intro f hf g hg hfg
        by_contra hne
        exact hdisj f (Finset.mem_coe.mp hf) g (Finset.mem_coe.mp hg) hfg hne
          (hover f (Finset.mem_coe.mp hf) g (Finset.mem_coe.mp hg))
    rw [Finset.card_range] at hcard
    exact hcard

/-- Witness for C9: the semaphore bound discharged on a concrete run of
capacity 2, and the worker bound on a single fetch execution with two
configured workers. -/
theorem c9_witness :
    ((0 : Nat) ≤ 2 ∧
      Concurrency.semRun 2 0
        [Concurrency.SemEvent.acquire, Concurrency.SemEvent.acquire,
          Concurrency.SemEvent.release] = some 1 ∧
      1 ≤ 2) ∧
    (({ Concurrency.FetchOp.mk 0 0 5 } : Finset Concurrency.FetchOp).card ≤
      Concurrency.workerCount 2) := by
  constructor
  · refine ⟨by omega, by decide, ?_⟩
    exact c9_bounded_concurrency.1 2
      [Concurrency.SemEvent.acquire, Concurrency.SemEvent.acquire,
        Concurrency.SemEvent.release] 0 1 (by omega) (by decide)
  · exact c9_bounded_concurrency.2 2 { Concurrency.FetchOp.mk 0 0 5 }
      (by decide) (by decide) (by decide)

end Infopulse
